import Mathlib

/-!
Verification of the chat-database-converter repository
(`intelligent_converter.py`, `batch_processor.py`).

Strings are modelled as `List Char`; Python floats are modelled as exact
rationals (`ℚ`).  The relevance score, whose constants are all multiples of
0.05, is computed internally in integer hundredths and exposed as a rational
via `mkRat _ 100`, keeping every definition kernel-computable.
-/

/-- Shorthand turning a Lean string literal into the `List Char` representation
used throughout this development. -/
def cs (x : String) : List Char := x.data

/-- The whitespace characters matched by Python's regex class in ASCII text. -/
def isSpaceChar (c : Char) : Bool :=
  c = ' ' || c = '\t' || c = '\n' || c = '\r' || c = '\x0b' || c = '\x0c'

/-- Drop the maximal leading run of whitespace (the regex piece `\s*`,
which is always followed by a non-space literal in the patterns below, so
greedy matching never needs to backtrack). -/
def skipSpaces (s : List Char) : List Char := s.dropWhile isSpaceChar

/-- Match a literal character sequence at the head of the input; return the
remainder on success. -/
def matchLit : List Char → List Char → Option (List Char)
  | [], s => some s
  | _, [] => none
  | p :: ps, c :: rest => if c = p then matchLit ps rest else none

/-- Case-insensitive variant of `matchLit` (the pattern is given in lowercase;
models Python's `re.IGNORECASE` on ASCII text). -/
def matchLitCI : List Char → List Char → Option (List Char)
  | [], s => some s
  | _, [] => none
  | p :: ps, c :: rest => if c.toLower = p then matchLitCI ps rest else none

/-- Whether `needle` occurs as a prefix of `hay` (Python `str.startswith`). -/
def startsWithCL (needle hay : List Char) : Bool :=
  (matchLit needle hay).isSome

/-- Whether `needle` occurs as a contiguous substring of `hay` (Python's `in`). -/
def containsStr (hay needle : List Char) : Bool :=
  match hay with
  | [] => needle.isEmpty
  | _ :: t => startsWithCL needle hay || containsStr t needle

/-- The regex piece `([^"]+)"`: a non-empty capture of non-quote characters
followed by the closing quote; returns the capture and the remainder after
the quote. -/
def matchCapture (s : List Char) : Option (List Char × List Char) :=
  let cap := s.takeWhile (fun c => c ≠ '"')
  match cap, s.dropWhile (fun c => c ≠ '"') with
  | [], _ => none
  | _, '"' :: rest => some (cap, rest)
  | _, _ => none

/-- The pattern `"parts":\s*\["([^"]+)"` anchored at the current position
(pattern 1 of `extract_messages_from_raw`). -/
def matchPartsAt (s : List Char) : Option (List Char × List Char) :=
  match matchLit (cs "\"parts\":") s with
  | none => none
  | some r =>
    match matchLit (cs "[\"") (skipSpaces r) with
    | none => none
    | some r2 => matchCapture r2

/-- A pattern `<key>\s*"([^"]+)"` anchored at the current position (patterns 2
and 3 of `extract_messages_from_raw`, with keys `"value":` and `"content":`). -/
def matchKeyStrAt (key : List Char) (s : List Char) : Option (List Char × List Char) :=
  match matchLit key s with
  | none => none
  | some r =>
    match matchLit (cs "\"") (skipSpaces r) with
    | none => none
    | some r2 => matchCapture r2

/-- The `re.findall` driver: scan left to right, collect non-overlapping leftmost
matches, resuming after the end of each match.  The fuel argument bounds the
recursion; every matcher used consumes at least one character, so
`s.length` steps always suffice. -/
def findAllAux (f : List Char → Option (List Char × List Char)) :
    Nat → List Char → List (List Char)
  | 0, s =>
    match f s with
    | some (cap, _) => [cap]
    | none => []
  | n + 1, s =>
    match f s with
    | some (cap, rest) => cap :: findAllAux f n rest
    | none =>
      match s with
      | [] => []
      | _ :: t => findAllAux f n t

/-- All matches of a pattern in the input, in order of appearance. -/
def findAllMatches (f : List Char → Option (List Char × List Char))
    (s : List Char) : List (List Char) :=
  findAllAux f s.length s

/-- All matches of `"parts":\s*\["([^"]+)"` (extraction pass 1). -/
def partsMatches (conv_text : List Char) : List (List Char) :=
  findAllMatches matchPartsAt conv_text

/-- All matches of `"value":\s*"([^"]+)"` (extraction pass 2). -/
def valueMatches (conv_text : List Char) : List (List Char) :=
  findAllMatches (matchKeyStrAt (cs "\"value\":")) conv_text

/-- All matches of `"content":\s*"([^"]+)"` (extraction pass 3). -/
def contentMatches (conv_text : List Char) : List (List Char) :=
  findAllMatches (matchKeyStrAt (cs "\"content\":")) conv_text

/-- The candidate message list of `extract_messages_from_raw`: the three
extraction passes concatenated in order, before cleaning. -/
def messageCandidates (conv_text : List Char) : List (List Char) :=
  partsMatches conv_text ++ valueMatches conv_text ++ contentMatches conv_text

/-- One hexadecimal digit. -/
def hexVal (c : Char) : Option Nat :=
  if '0' ≤ c ∧ c ≤ '9' then some (c.toNat - 48)
  else if 'a' ≤ c ∧ c ≤ 'f' then some (c.toNat - 87)
  else if 'A' ≤ c ∧ c ≤ 'F' then some (c.toNat - 55)
  else none

/-- Backslash-escape decoding, modelling `msg.encode().decode('unicode_escape')`
on ASCII text: the common single-character escapes and `\xHH` / `\uHHHH`
are decoded; any other backslash sequence is passed through unchanged.
(Octal escapes and `\U` do not occur in the analysed inputs; note that a
candidate message can never contain `"` by construction of the captures.) -/
def unicodeUnescape : List Char → List Char
  | [] => []
  | ['\\'] => ['\\']
  | '\\' :: 'x' :: a :: b :: rest =>
    match hexVal a, hexVal b with
    | some ha, some hb => Char.ofNat (16 * ha + hb) :: unicodeUnescape rest
    | _, _ => '\\' :: 'x' :: unicodeUnescape (a :: b :: rest)
  | '\\' :: 'u' :: a :: b :: c :: d :: rest =>
    match hexVal a, hexVal b, hexVal c, hexVal d with
    | some ha, some hb, some hc, some hd =>
      Char.ofNat (4096 * ha + 256 * hb + 16 * hc + hd) :: unicodeUnescape rest
    | _, _, _, _ => '\\' :: 'u' :: unicodeUnescape (a :: b :: c :: d :: rest)
  | '\\' :: c :: rest =>
    if c = 'n' then '\n' :: unicodeUnescape rest
    else if c = 't' then '\t' :: unicodeUnescape rest
    else if c = 'r' then '\r' :: unicodeUnescape rest
    else if c = '\\' then '\\' :: unicodeUnescape rest
    else if c = '\'' then '\'' :: unicodeUnescape rest
    else if c = '"' then '"' :: unicodeUnescape rest
    else if c = 'a' then '\x07' :: unicodeUnescape rest
    else if c = 'b' then '\x08' :: unicodeUnescape rest
    else if c = 'f' then '\x0c' :: unicodeUnescape rest
    else if c = 'v' then '\x0b' :: unicodeUnescape rest
    else '\\' :: c :: unicodeUnescape rest
  | c :: rest => c :: unicodeUnescape rest

/-- The cleaning filter of `extract_messages_from_raw`: keep a decoded message
iff it is longer than 20 characters and does not start with `You are`. -/
def keepMessage (m : List Char) : Bool :=
  decide (20 < m.length) && !(startsWithCL (cs "You are") m)

/-- Model of `extract_messages_from_raw`: run the three extraction passes, then decode
each candidate and keep it only if it passes the cleaning filter. -/
def extract_messages_from_raw (conv_text : List Char) : List (List Char) :=
  let messages := partsMatches conv_text
  let messages := messages ++ valueMatches conv_text
  let messages := messages ++ contentMatches conv_text
  messages.foldl
    (fun cleaned msg =>
      let m := unicodeUnescape msg
      if keepMessage m then cleaned ++ [m] else cleaned)
    []

/-- Digit characters and the dot, the regex class `[\d.]`. -/
def isDigitOrDot (c : Char) : Bool := c.isDigit || c = '.'

/-- Value of a decimal digit string (most significant first). -/
def digitsToNat (ds : List Char) : Nat :=
  ds.foldl (fun n c => 10 * n + (c.toNat - 48)) 0

/-- Model of `float()` applied to a `[\d.]+` capture: succeeds on digit strings with at
most one dot (and at least one digit), fails otherwise (Python raises
`ValueError` on inputs such as `1.2.3` or `.`). -/
def parsePyFloat (s : List Char) : Option ℚ :=
  let intPart := s.takeWhile (fun c => c ≠ '.')
  match s.dropWhile (fun c => c ≠ '.') with
  | [] => if s.isEmpty then none else some (mkRat (digitsToNat s) 1)
  | '.' :: frac =>
    if frac.any (fun c => c = '.') then none
    else if intPart.isEmpty && frac.isEmpty then none
    else some (mkRat (digitsToNat intPart * 10 ^ frac.length + digitsToNat frac) (10 ^ frac.length))
  | _ => none

/-- The pattern `<key>\s*([\d.]+)` anchored at the current position, returning
the numeric capture. -/
def matchNumAt (key : List Char) (s : List Char) : Option (List Char) :=
  match matchLit key s with
  | none => none
  | some r =>
    let r2 := skipSpaces r
    let ds := r2.takeWhile isDigitOrDot
    if ds.isEmpty then none else some ds

/-- The `re.search` driver: return the first position (leftmost) where the anchored
matcher succeeds. -/
def scanFirst (f : List Char → Option (List Char)) : List Char → Option (List Char)
  | [] => f []
  | c :: t =>
    match f (c :: t) with
    | some r => some r
    | none => scanFirst f t

/-- Model of `re.search(r'<key>\s*([\d.]+)', s)`, used for `create_time` and
`update_time`. -/
def reSearchNum (key : List Char) (s : List Char) : Option (List Char) :=
  scanFirst (matchNumAt key) s

/-- The split pattern `"title":\s*"` anchored at the current position,
returning the remainder after the opening quote of the title. -/
def matchTitleSepAt (s : List Char) : Option (List Char) :=
  match matchLit (cs "\"title\":") s with
  | none => none
  | some r => matchLit (cs "\"") (skipSpaces r)

/-- The `re.split(r'"title":\s*"', content)` driver (the separator pattern always
consumes at least nine characters, so `content.length` steps of fuel
suffice). -/
def splitTitleAux : Nat → List Char → List Char → List (List Char)
  | 0, acc, s => [acc.reverse ++ s]
  | n + 1, acc, s =>
    match matchTitleSepAt s with
    | some rest => acc.reverse :: splitTitleAux n [] rest
    | none =>
      match s with
      | [] => [acc.reverse]
      | c :: t => splitTitleAux n (c :: acc) t

/-- All segments of the input around occurrences of `"title":\s*"`. -/
def splitOnTitle (content : List Char) : List (List Char) :=
  splitTitleAux (content.length + 1) [] content

/-- The dictionary assembled per conversation by `parse_raw_text_export`
(and, for the JSON dialects, by `json.loads`). -/
structure ConvData where
  title : List Char
  create_time : Option ℚ
  update_time : Option ℚ
  messages : List (List Char)
  raw_text : Option (List Char)
deriving DecidableEq

/-- The loop body of `parse_raw_text_export` for one candidate block: extract
the title via `re.match(r'([^"]+)"', ...)` (no match: block silently skipped),
recover the timestamps, extract the messages, and keep the first 5000 raw
characters.  A `float()` failure on a timestamp capture raises inside the
`try`, so the whole block is skipped. -/
def parseBlock (conv_text : List Char) : Option ConvData :=
  match matchCapture conv_text with
  | none => none
  | some (title, _) =>
    let floatOf : Option (List Char) → Option (Option ℚ) := fun
      | none => some none
      | some ds => (parsePyFloat ds).map some
    match floatOf (reSearchNum (cs "\"create_time\":") conv_text),
          floatOf (reSearchNum (cs "\"update_time\":") conv_text) with
    | some ct, some ut =>
      some ⟨title, ct, ut, extract_messages_from_raw conv_text, some (conv_text.take 5000)⟩
    | _, _ => none

/-- Model of `parse_raw_text_export`: split on the title boundary pattern, drop the
leading segment, and parse each block, skipping failures. -/
def parse_raw_text_export (content : List Char) : List ConvData :=
  ((splitOnTitle content).drop 1).filterMap parseBlock

/-- Floor of a rational divided by a positive natural number, as an integer:
used for epoch-seconds to days. -/
def ratFloorDiv (t : ℚ) (n : Nat) : Int :=
  Int.fdiv t.num (t.den * n)

/-- Proleptic Gregorian civil date (year, month, day) from a count of days
since 1970-01-01, following the standard days-to-civil algorithm; models the
date part of `datetime.fromtimestamp` with a UTC local timezone. -/
def civilFromDays (z0 : Int) : Int × Int × Int :=
  let z := z0 + 719468
  let era := Int.fdiv z 146097
  let doe := z - era * 146097
  let yoe := Int.fdiv (doe - Int.fdiv doe 1460 + Int.fdiv doe 36524 - Int.fdiv doe 146096) 365
  let y := yoe + era * 400
  let doy := doe - (365 * yoe + Int.fdiv yoe 4 - Int.fdiv yoe 100)
  let mp := Int.fdiv (5 * doy + 2) 153
  let d := doy - Int.fdiv (153 * mp + 2) 5 + 1
  let m := mp + (if mp < 10 then 3 else -9)
  (y + (if m ≤ 2 then 1 else 0), m, d)

/-- Left-pad a digit string with zeros to the given width. -/
def padZeros (w : Nat) (s : List Char) : List Char :=
  List.replicate (w - s.length) '0' ++ s

/-- Model of `datetime.fromtimestamp(t).strftime('%Y-%m-%d')`: the `YYYY-MM-DD`
rendering of an epoch-seconds value; `none` models the exception raised when
the timestamp falls outside `datetime`'s supported years 1–9999. -/
def epochToDateStr (t : ℚ) : Option (List Char) :=
  match civilFromDays (ratFloorDiv t 86400) with
  | (y, m, d) =>
    if 1 ≤ y ∧ y ≤ 9999 then
      some (padZeros 4 (Nat.toDigits 10 y.toNat) ++ '-' ::
            (padZeros 2 (Nat.toDigits 10 m.toNat) ++ '-' ::
             padZeros 2 (Nat.toDigits 10 d.toNat)))
    else none

/-- ASCII lowercasing of a string (Python `str.lower()` on ASCII text). -/
def lowerStr (s : List Char) : List Char := s.map Char.toLower

/-- Python `sep.join(parts)`. -/
def joinWith (sep : List Char) : List (List Char) → List Char
  | [] => []
  | [x] => x
  | x :: xs => x ++ sep ++ joinWith sep xs

/-- Python `l[-2:]`: the last two elements (all of them when fewer). -/
def lastTwo {α : Type} (l : List α) : List α := l.drop (l.length - 2)

/-- The combined text analysed by `create_intelligent_description`: the
lowercased title, then (when messages exist) a space and the first two plus
last two messages joined by spaces.  Note the source lowercases only the
title here. -/
def descContent (title : List Char) (messages : List (List Char)) : List Char :=
  lowerStr title ++
    (if messages.isEmpty then []
     else ' ' :: joinWith [' '] (messages.take 2 ++ lastTwo messages))

/-- The regex capture `([^.!?]+)`: the maximal non-empty run of characters
other than `.`, `!`, `?` at the current position. -/
def capNonPunct (s : List Char) : Option (List Char) :=
  let cap := s.takeWhile (fun c => !(c = '.' || c = '!' || c = '?'))
  if cap.isEmpty then none else some cap

/-- The pattern `how to ([^.!?]+)` (case-insensitive) anchored at the current
position. -/
def matchHowToAt (s : List Char) : Option (List Char) :=
  match matchLitCI (cs "how to ") s with
  | none => none
  | some r => capNonPunct r

/-- Greedy-with-backtracking `\s+` directly followed by the final capture
`([^.!?]+)`: try consuming `k` spaces for `k` from the maximal run length down
to 1. -/
def greedyCapAux (s : List Char) : Nat → Option (List Char)
  | 0 => none
  | k + 1 =>
    match capNonPunct (s.drop (k + 1)) with
    | some cap => some cap
    | none => greedyCapAux s k

/-- The optional group `(?:a\s+)?` followed by the capture `([^.!?]+)`: the
regex engine first tries to consume `a\s+` (with a greedy inner `\s+`), and
falls back to the empty option when the remainder cannot match. -/
def optATail (s : List Char) : Option (List Char) :=
  match s with
  | [] => none
  | c :: rest =>
    if c.toLower = 'a' then
      match greedyCapAux rest ((rest.takeWhile isSpaceChar).length) with
      | some cap => some cap
      | none => capNonPunct s
    else capNonPunct s

/-- Greedy-with-backtracking `\s+` followed by `(?:a\s+)?([^.!?]+)`. -/
def greedyCBAux (s : List Char) : Nat → Option (List Char)
  | 0 => none
  | k + 1 =>
    match optATail (s.drop (k + 1)) with
    | some cap => some cap
    | none => greedyCBAux s k

/-- The pattern `(?:create|build)\s+(?:a\s+)?([^.!?]+)` (case-insensitive)
anchored at the current position. -/
def matchCreateBuildAt (s : List Char) : Option (List Char) :=
  match matchLitCI (cs "create") s with
  | some rest => greedyCBAux rest ((rest.takeWhile isSpaceChar).length)
  | none =>
    match matchLitCI (cs "build") s with
    | some rest => greedyCBAux rest ((rest.takeWhile isSpaceChar).length)
    | none => none

/-- Model of `extract_key_phrases`: for each of the first three messages, capture the
tail of a `how to …` phrase and/or of a `create/build …` phrase, truncated to
30 characters. -/
def extract_key_phrases (messages : List (List Char)) : List (List Char) :=
  (messages.take 3).foldl
    (fun key_phrases msg =>
      let kp1 :=
        if containsStr (lowerStr msg) (cs "how to") then
          match scanFirst matchHowToAt msg with
          | some cap => key_phrases ++ [cap.take 30]
          | none => key_phrases
        else key_phrases
      if containsStr (lowerStr msg) (cs "create") || containsStr (lowerStr msg) (cs "build") then
        match scanFirst matchCreateBuildAt msg with
        | some cap => kp1 ++ [cap.take 30]
        | none => kp1
      else kp1)
    []

/-- Multi-word pattern `w₁\s+w₂\s+…` (case-insensitive) anchored at the
current position; every word starts with a letter, so the greedy `\s+` never
needs to backtrack. -/
def matchWordsCIAt : List (List Char) → List Char → Bool
  | [], _ => true
  | [w], s => (matchLitCI w s).isSome
  | w :: ws, s =>
    match matchLitCI w s with
    | none => false
    | some rest =>
      let k := (rest.takeWhile isSpaceChar).length
      if k = 0 then false else matchWordsCIAt ws (rest.drop k)

/-- The `re.search` of a multi-word case-insensitive pattern. -/
def searchWordsCI (ws : List (List Char)) : List Char → Bool
  | [] => matchWordsCIAt ws []
  | s@(_ :: t) => matchWordsCIAt ws s || searchWordsCI ws t

/-- The deliverable patterns of `extract_deliverables`, in source order:
appended name paired with the (case-insensitive) word sequence searched. -/
def deliverablePatterns : List (List Char × List (List Char)) := [
  (cs "email sequence", [cs "email", cs "sequence"]),
  (cs "landing page", [cs "landing", cs "page"]),
  (cs "sales page", [cs "sales", cs "page"]),
  (cs "VSL script", [cs "vsl", cs "script"]),
  (cs "ad copy", [cs "ad", cs "copy"]),
  (cs "headline", [cs "headline"]),
  (cs "hook", [cs "hook"]),
  (cs "framework", [cs "framework"]),
  (cs "template", [cs "template"])]

/-- Model of `extract_deliverables`: the names whose pattern occurs in the text, at
most three. -/
def extract_deliverables (text : List Char) : List (List Char) :=
  (deliverablePatterns.filterMap
    (fun p => if searchWordsCI p.2 text then some p.1 else none)).take 3

/-- The tool patterns of `extract_tools`, in source order: appended name
paired with the alternative keywords of the pattern. -/
def toolPatterns : List (List Char × List (List Char)) := [
  (cs "Claude", [cs "claude"]),
  (cs "ChatGPT", [cs "chatgpt", cs "gpt"]),
  (cs "n8n", [cs "n8n"]),
  (cs "Cursor", [cs "cursor"]),
  (cs "Zapier", [cs "zapier"]),
  (cs "Airtable", [cs "airtable"])]

/-- Model of `extract_tools`: the names one of whose keywords occurs in the text, at
most three. -/
def extract_tools (text : List Char) : List (List Char) :=
  (toolPatterns.filterMap
    (fun p => if p.2.any (fun w => searchWordsCI [w] text) then some p.1 else none)).take 3

/-- The `description_parts` list of `create_intelligent_description`: at most
one topic phrase from the first matching rule of the if/elif chain (with the
key-phrase fallback in the final else), then optional deliverables and tools
phrases. -/
def descriptionParts (title : List Char) (messages : List (List Char)) : List (List Char) :=
  let content := descContent title messages
  let topic : List (List Char) :=
    if containsStr content (cs "valentina") || containsStr content (cs "sage") then
      [cs "AI persona development for GTR quiz funnel"]
    else if containsStr content (cs "emma") || containsStr content (cs "tnt") then
      [cs "TNT Media brand and acquisition strategy"]
    else if containsStr content (cs "resume") || containsStr content (cs "portfolio") then
      [cs "Job application materials and portfolio development"]
    else if containsStr content (cs "prompt") then
      [cs "Prompt engineering and template development"]
    else if containsStr content (cs "email") && containsStr content (cs "sequence") then
      [cs "Email sequence copywriting and optimization"]
    else if containsStr content (cs "landing") || containsStr content (cs "sales page") then
      [cs "Landing/sales page copy and conversion optimization"]
    else if containsStr content (cs "research") then
      [cs "Market and customer research analysis"]
    else if containsStr content (cs "strategy") then
      [cs "Strategic planning and framework development"]
    else
      match extract_key_phrases messages with
      | [] => []
      | kps => [cs "Discussion of " ++ joinWith (cs ", ") (kps.take 3)]
  let withDeliv :=
    match extract_deliverables content with
    | [] => topic
    | ds => topic ++ [cs "Created: " ++ joinWith (cs ", ") ds]
  match extract_tools content with
  | [] => withDeliv
  | ts => withDeliv ++ [cs "Using: " ++ joinWith (cs ", ") ts]

/-- The combined description before the short-description fallback:
`'. '.join(description_parts)`. -/
def combinedDescription (title : List Char) (messages : List (List Char)) : List Char :=
  joinWith (cs ". ") (descriptionParts title messages)

/-- Model of `create_intelligent_description`: the combined description; when it is
shorter than 50 characters and messages exist, replaced by the first message
longer than 100 characters truncated to 200 characters with `...` appended;
finally hard-truncated to 300 characters. -/
def create_intelligent_description (title : List Char) (messages : List (List Char)) : List Char :=
  let description := combinedDescription title messages
  let description :=
    if description.length < 50 && !messages.isEmpty then
      match messages.find? (fun m => decide (100 < m.length)) with
      | some m => m.take 200 ++ cs "..."
      | none => description
    else description
  description.take 300

/-- The `category_patterns` table, in source (dict insertion) order. -/
def category_patterns : List (List Char × List (List Char)) := [
  (cs "Project – Get The Receipts (GTR)",
    [cs "valentina", cs "sage", cs "receipts", cs "gtr", cs "ofm",
     cs "quiz funnel", cs "personality test", cs "archetype"]),
  (cs "Project – TNT Media",
    [cs "emma", cs "tnt", cs "tom clayson", cs "media buying",
     cs "acquisition", cs "creative strategy"]),
  (cs "Project – PaleoHacks / David Sinick",
    [cs "paleohacks", cs "david sinick", cs "health funnel", cs "vsl",
     cs "keto", cs "paleo", cs "supplement"]),
  (cs "AI Bot Configurations",
    [cs "system prompt", cs "personality", cs "voice", cs "tone",
     cs "character", cs "persona", cs "chatbot", cs "assistant config"]),
  (cs "Job - Copywriting",
    [cs "portfolio", cs "writing sample", cs "application", cs "cover letter",
     cs "resume", cs "job posting", cs "interview prep"]),
  (cs "Job - AI Consultant",
    [cs "ai consulting", cs "ai strategy", cs "implementation", cs "ai advisor"]),
  (cs "Health - Therapy",
    [cs "trauma", cs "healing", cs "therapy", cs "emotional", cs "anxiety",
     cs "depression", cs "coping", cs "mental health", cs "processing"]),
  (cs "Prompt Engineering",
    [cs "prompt", cs "few-shot", cs "zero-shot", cs "chain of thought",
     cs "system message", cs "instruction", cs "template"]),
  (cs "Copywriting - Emails",
    [cs "email sequence", cs "subject line", cs "email campaign",
     cs "newsletter", cs "broadcast", cs "autoresponder"]),
  (cs "Copywriting - Sales Page",
    [cs "sales page", cs "long form", cs "sales letter", cs "checkout",
     cs "order form", cs "guarantee", cs "testimonial"]),
  (cs "Business Strategy",
    [cs "strategy", cs "planning", cs "roadmap", cs "framework",
     cs "analysis", cs "competitive", cs "positioning"]),
  (cs "Customer Research",
    [cs "customer research", cs "avatar", cs "persona", cs "survey",
     cs "interview", cs "voice of customer", cs "market research"])]

/-- Stable descending insertion by score: an element is placed after every
element with a score at least as large, matching Python's stable
`sorted(..., key=lambda x: x[1], reverse=True)`. -/
def insertDescByScore (x : List Char × Nat) : List (List Char × Nat) → List (List Char × Nat)
  | [] => [x]
  | y :: ys => if x.2 < y.2 then y :: insertDescByScore x ys else x :: y :: ys

/-- Stable descending sort by score (insertion sort; stable sorts agree on
their output, so this models Python's Timsort with `reverse=True`). -/
def sortDescByScore : List (List Char × Nat) → List (List Char × Nat)
  | [] => []
  | x :: xs => insertDescByScore x (sortDescByScore xs)

/-- The combined text analysed by `determine_categories`: title, description
and the first five messages joined by spaces, all lowercased. -/
def catContent (title description : List Char) (messages : List (List Char)) : List Char :=
  lowerStr (title ++ ' ' :: (description ++ ' ' :: joinWith [' '] (messages.take 5)))

/-- Model of `determine_categories`: score every category by keyword hits, keep the
strictly positive scorers sorted by score (stable descending) and take the top
three; with no scorer, apply the fixed fallback priority chain. -/
def determine_categories (title description : List Char) (messages : List (List Char)) :
    List (List Char) :=
  let content := catContent title description messages
  let category_scores := category_patterns.filterMap (fun cp =>
    let score := (cp.2.filter (fun p => containsStr content p)).length
    if 0 < score then some (cp.1, score) else none)
  let categories : List (List Char) :=
    if category_scores.isEmpty then []
    else ((sortDescByScore category_scores).map Prod.fst).take 3
  if categories.isEmpty then
    if [cs "prompt", cs "template", cs "system"].any (fun w => containsStr content w) then
      [cs "Prompt Engineering"]
    else if [cs "email", cs "sequence", cs "newsletter"].any (fun w => containsStr content w) then
      [cs "Copywriting - Emails"]
    else if [cs "strategy", cs "planning", cs "framework"].any (fun w => containsStr content w) then
      [cs "Business Strategy"]
    else if [cs "research", cs "customer", cs "avatar"].any (fun w => containsStr content w) then
      [cs "Customer Research"]
    else [cs "General Chat"]
  else categories

/-- Python `str.title()` on ASCII text: a letter is uppercased when the
previous character is not a letter, lowercased otherwise. -/
def pyTitleAux : Bool → List Char → List Char
  | _, [] => []
  | prevAlpha, c :: rest =>
    (if c.isAlpha then (if prevAlpha then c.toLower else c.toUpper) else c)
      :: pyTitleAux c.isAlpha rest

/-- Python `str.title()`. -/
def pyTitle (s : List Char) : List Char := pyTitleAux false s

/-- The `tag_patterns` table, in source (dict insertion) order. -/
def tag_patterns : List (List Char × List (List Char)) := [
  (cs "tools",
    [cs "claude", cs "gpt", cs "chatgpt", cs "n8n", cs "cursor", cs "zapier",
     cs "make", cs "airtable", cs "notion", cs "figma", cs "canva"]),
  (cs "techniques",
    [cs "aida", cs "pas", cs "fab", cs "storytelling", cs "urgency",
     cs "scarcity", cs "social proof", cs "authority", cs "reciprocity"]),
  (cs "deliverables",
    [cs "email sequence", cs "landing page", cs "sales page",
     cs "vsl script", cs "ad copy", cs "headline", cs "hook",
     cs "lead magnet", cs "webinar", cs "funnel"]),
  (cs "clients",
    [cs "valentina", cs "sage", cs "emma", cs "tom", cs "david sinick",
     cs "pauline", cs "stefan georgi", cs "luka mills"]),
  (cs "work_types",
    [cs "research", cs "strategy", cs "copywriting", cs "automation",
     cs "analysis", cs "optimization", cs "testing", cs "implementation"])]

/-- Insertion into the tag set.  Python's `set` iteration order is
implementation-defined (hash-based); the underlying element set is modelled
deterministically by first-insertion order, which fixes the same elements. -/
def setAdd (s : List (List Char)) (x : List Char) : List (List Char) :=
  if x ∈ s then s else s ++ [x]

/-- The combined text analysed by `generate_specific_tags`: title, description
and the first three messages joined by spaces, all lowercased. -/
def tagContent (title description : List Char) (messages : List (List Char)) : List Char :=
  lowerStr (title ++ ' ' :: (description ++ ' ' :: joinWith [' '] (messages.take 3)))

/-- The tag set built by `generate_specific_tags` before the final
truncation/fallback: title-cased table keywords found in the content, plus
the fixed project / work-type / deliverable indicator tags. -/
def tagSet (title description : List Char) (messages : List (List Char)) :
    List (List Char) :=
  let content := tagContent title description messages
  let tags : List (List Char) := tag_patterns.foldl
    (fun tags cp => cp.2.foldl
      (fun tags p => if containsStr content p then setAdd tags (pyTitle p) else tags) tags)
    []
  let tags := if containsStr content (cs "gtr") || containsStr content (cs "receipts") then
    setAdd tags (cs "GTR") else tags
  let tags := if containsStr content (cs "tnt") then setAdd tags (cs "TNT") else tags
  let tags := if containsStr content (cs "paleohacks") then setAdd tags (cs "PaleoHacks") else tags
  let tags := if containsStr content (cs "framework") then setAdd tags (cs "Framework") else tags
  let tags := if containsStr content (cs "template") then setAdd tags (cs "Template") else tags
  let tags := if containsStr content (cs "automation") || containsStr content (cs "n8n") then
    setAdd tags (cs "Automation") else tags
  let tags := if containsStr content (cs "analysis") || containsStr content (cs "audit") then
    setAdd tags (cs "Analysis") else tags
  let tags := if containsStr content (cs "email sequence") then
    setAdd tags (cs "Email Sequence") else tags
  let tags := if containsStr content (cs "landing page") then
    setAdd tags (cs "Landing Page") else tags
  let tags := if containsStr content (cs "sales page") then
    setAdd tags (cs "Sales Page") else tags
  let tags := if containsStr content (cs "vsl") then setAdd tags (cs "VSL") else tags
  tags

/-- Model of `generate_specific_tags`: the tag set truncated to five entries, with the
`General` fallback when nothing matched (`list(tags)[:5] if tags else
["General"]`). -/
def generate_specific_tags (title description : List Char) (messages : List (List Char)) :
    List (List Char) :=
  let tags := tagSet title description messages
  if tags.isEmpty then [cs "General"] else tags.take 5

/-- The additive adjustment chain of `calculate_relevance_score`, before the
final clamp.  The Python float constants are all exact multiples of 0.01, so
the score is accumulated in integer hundredths (base 0.5 = 50); each
sequential `score += x` / `score -= x` under a condition is written as the
summand `± (if condition then x else 0)`. -/
def rawScoreHundredths (categories tags : List (List Char))
    (messages : List (List Char)) : Int :=
  50
  + (if categories.any (fun c => containsStr c (cs "Project")) then 20 else 0)
  + (if cs "Framework" ∈ tags ∨ cs "Template" ∈ tags ∨ cs "System" ∈ tags then 15 else 0)
  + (if cs "Email Sequence" ∈ tags ∨ cs "Landing Page" ∈ tags ∨ cs "Sales Page" ∈ tags then 15 else 0)
  + (if 10 < messages.length then 10 else 0)
  + (if cs "Business Strategy" ∈ categories ∨ cs "Analysis" ∈ tags then 10 else 0)
  - (if categories = [cs "General Chat"] then 20 else 0)
  - (if messages.length < 3 then 10 else 0)

/-- Model of `calculate_relevance_score`: the adjusted score clamped to [0.1, 1.0]
(10–100 hundredths) and exposed as the exact rational `score / 100`. -/
def calculate_relevance_score (title description : List Char)
    (categories tags : List (List Char)) (messages : List (List Char)) : ℚ :=
  mkRat (min (max (rawScoreHundredths categories tags messages) 10) 100) 100

/-- The character class kept by `clean_title`: unescape, strip characters outside the allowed class
`[\w\s\-–—:,.()]`, truncate to 100 characters. -/
def allowedTitleChar (c : Char) : Bool :=
  c.isAlphanum || c = '_' || isSpaceChar c || c = '-' || c = '–' || c = '—' ||
  c = ':' || c = ',' || c = '.' || c = '(' || c = ')'

/-- Model of `clean_title`. -/
def clean_title (title : List Char) : List Char :=
  ((unicodeUnescape title).filter allowedTitleChar).take 100

/-- The normalized output record assembled by `extract_conversation_details`
(the `url` field, a fixed prefix plus an MD5-derived id of the title, is
omitted here: no analysed property depends on it). -/
structure ConversationRecord where
  name : List Char
  description : List Char
  category : List (List Char)
  tags : List (List Char)
  date : List Char
  date_source : List Char
  relevance_score : ℚ
  message_volume : Nat
  creator : List Char
  type : List Char
deriving DecidableEq

/-- Model of `extract_conversation_details`: drop conversations with an empty or
placeholder title; derive the date from a truthy numeric `create_time`
(conversion failure leaves the date missing); fill messages from the raw text
when the message list is empty; then assemble the record from the classifier
outputs. -/
def extract_conversation_details (cd : ConvData) : Option ConversationRecord :=
  if cd.title.isEmpty || cd.title = cs "New conversation" then none
  else
    let dateOpt : Option (List Char) :=
      match cd.create_time with
      | some t => if t = 0 then none else epochToDateStr t
      | none => none
    let messages :=
      if cd.messages.isEmpty then
        match cd.raw_text with
        | some rt => extract_messages_from_raw rt
        | none => []
      else cd.messages
    let description := create_intelligent_description cd.title messages
    let categories := determine_categories cd.title description messages
    let tags := generate_specific_tags cd.title description messages
    some {
      name := clean_title cd.title,
      description := description,
      category := categories,
      tags := tags,
      date := dateOpt.getD [],
      date_source := if dateOpt.isSome then cs "exact" else cs "missing",
      relevance_score := calculate_relevance_score cd.title description categories tags messages,
      message_volume := messages.length,
      creator := cs "Piet Weinman",
      type := cs "chatgpt" }

/-- The dedup key of the Batch Coordinator: `(conv['name'], conv.get('date', ''))`;
the `date` key is always present on a record, so the `.get` default never
applies. -/
def dedupKey (r : ConversationRecord) : List Char × List Char := (r.name, r.date)

/-- One iteration of the dedup loop of `process_multiple_files`: the state is
the accumulated unique-record list and the `seen` key set (modelled as a
list); a record is appended iff its key has not been seen before. -/
def dedupStep (st : List ConversationRecord × List (List Char × List Char))
    (conv : ConversationRecord) :
    List ConversationRecord × List (List Char × List Char) :=
  if dedupKey conv ∈ st.2 then st else (st.1 ++ [conv], st.2 ++ [dedupKey conv])

/-- The dedup loop of `process_multiple_files`: walk the merged record list,
keeping a record iff its key has not been seen before. -/
def removeDuplicates (convs : List ConversationRecord) : List ConversationRecord :=
  (convs.foldl dedupStep ([], [])).1

/-- The fold of `removeDuplicates` generalized over the starting `seen` set, for
reasoning about the fold. -/
def dedupAux (seen : List (List Char × List Char)) :
    List ConversationRecord → List ConversationRecord
  | [] => []
  | x :: xs =>
    if dedupKey x ∈ seen then dedupAux seen xs
    else x :: dedupAux (seen ++ [dedupKey x]) xs

/-- First-occurrence deduplication stated recursively, following the spec's
words: keep the head, drop every later record with the same key, recurse. -/
def firstOccurrences : List ConversationRecord → List ConversationRecord
  | [] => []
  | x :: xs => x :: firstOccurrences (xs.filter (fun y => decide (dedupKey y ≠ dedupKey x)))
termination_by l => l.length
decreasing_by
  exact Nat.lt_succ_of_le (List.length_filter_le _ _)

/-- Lexicographic (code-point) strict order on strings, Python's `<`. -/
def strLtCL : List Char → List Char → Bool
  | [], [] => false
  | [], _ :: _ => true
  | _ :: _, [] => false
  | a :: as, b :: bs => if a < b then true else if b < a then false else strLtCL as bs

/-- Stable ascending insertion by the sort key of
`unique_conversations.sort(key=lambda x: x.get('date', '9999-99-99'))`.
Every record carries a `date` (possibly empty), so the key is always the
`date` field itself — the `'9999-99-99'` default never applies. -/
def insertByDate (x : ConversationRecord) : List ConversationRecord → List ConversationRecord
  | [] => [x]
  | y :: ys => if strLtCL y.date x.date then y :: insertByDate x ys else x :: y :: ys

/-- The final sort of `process_multiple_files` (stable insertion sort; stable
sorts agree on their output, so this models Python's stable `list.sort`). -/
def sortByDate : List ConversationRecord → List ConversationRecord
  | [] => []
  | x :: xs => insertByDate x (sortByDate xs)

/-- Concrete raw-text input containing the literal block
`"title": "Test", "create_time": 1700000000, "parts": ["…"]`. -/
def rawEx : List Char :=
  cs "\"title\": \"Test\", \"create_time\": 1700000000, \"parts\": [\"A message over twenty chars long for sure\"]"

/-- Concrete raw-text input in which the `value` and `content` passes both
match the same string. -/
def rawDupEx : List Char :=
  cs "\"parts\": [\"first part msg\"], \"value\": \"same text\", \"content\": \"same text\""

/-- Concrete conversation input with an exact timestamp. -/
def cdEx : ConvData :=
  ⟨cs "Test", some (mkRat 1700000000 1), none,
   [cs "A message over twenty chars long for sure"], none⟩

/-- Concrete conversation input with no timestamp and no messages. -/
def cdEx2 : ConvData :=
  ⟨cs "Quick hello", none, none, [], none⟩

/-- A 150-character message containing no classifier keyword. -/
def zMsg : List Char := List.replicate 150 'z'

/-- A record differing only in its date, for exercising the batch sort. -/
def recWithDate (d : List Char) : ConversationRecord :=
  ⟨cs "t", [], [cs "General Chat"], [cs "General"], d, cs "missing",
   mkRat 50 100, 0, cs "Piet Weinman", cs "chatgpt"⟩

/-- The relevance-scoring formula exactly as the specification words it
(base 0.5, the seven additive adjustments, clamp to [0.1, 1.0]); the
refinement target for `calculate_relevance_score`. -/
def relevanceScoreFormula (categories tags : List (List Char))
    (messages : List (List Char)) : ℚ :=
  min (max ((0.5 : ℚ)
    + (if categories.any (fun c => containsStr c (cs "Project")) then 0.2 else 0)
    + (if cs "Framework" ∈ tags ∨ cs "Template" ∈ tags ∨ cs "System" ∈ tags then 0.15 else 0)
    + (if cs "Email Sequence" ∈ tags ∨ cs "Landing Page" ∈ tags ∨ cs "Sales Page" ∈ tags then 0.15 else 0)
    + (if 10 < messages.length then 0.1 else 0)
    + (if cs "Business Strategy" ∈ categories ∨ cs "Analysis" ∈ tags then 0.1 else 0)
    - (if categories = [cs "General Chat"] then 0.2 else 0)
    - (if messages.length < 3 then 0.1 else 0)) 0.1) 1.0

theorem clean_foldl_eq_filter (cands : List (List Char)) (acc : List (List Char)) :
    cands.foldl
      (fun cleaned msg =>
        let m := unicodeUnescape msg
        if keepMessage m then cleaned ++ [m] else cleaned)
      acc
    = acc ++ (cands.map unicodeUnescape).filter keepMessage := by
  induction cands generalizing acc with
  | nil => simp
  | cons x xs ih =>
    simp only [List.foldl_cons, List.map_cons, List.filter_cons]
    cases h : keepMessage (unicodeUnescape x) with
    | true => simp only [h, if_true, ih, List.append_assoc, List.singleton_append]
    | false => simp only [h, if_false, ih, Bool.false_eq_true]

/-- Claim C5.  For every raw-text conversation block, the candidate message list
of `extract_messages_from_raw` is the concatenation, in this order and
without deduplication, of all `"parts"` matches, then all `"value"` matches,
then all `"content"` matches, each in order of appearance (shown on the
concrete input `rawDupEx`, where the `value` and `content` passes contribute
the same string twice). -/
theorem extraction_passes_concatenated :
    (∀ conv_text : List Char,
      messageCandidates conv_text =
        partsMatches conv_text ++ valueMatches conv_text ++ contentMatches conv_text) ∧
    messageCandidates rawDupEx = [cs "first part msg", cs "same text", cs "same text"] :=
  ⟨fun _ => rfl, by decide⟩

/-- Claim C6.  A candidate message appears (in decoded form) in the list
returned by `extract_messages_from_raw` iff its backslash-unescaped decoding
is longer than 20 characters and does not start with `You are`; the returned
list is exactly the decoded candidates surviving that filter. -/
theorem message_filter_spec (conv_text m : List Char)
    (hm : m ∈ messageCandidates conv_text) :
    (unicodeUnescape m ∈ extract_messages_from_raw conv_text ↔
      keepMessage (unicodeUnescape m) = true) ∧
    extract_messages_from_raw conv_text =
      ((messageCandidates conv_text).map unicodeUnescape).filter keepMessage := by
  have heq : extract_messages_from_raw conv_text =
      ((messageCandidates conv_text).map unicodeUnescape).filter keepMessage := by
    have h0 := clean_foldl_eq_filter
      (partsMatches conv_text ++ valueMatches conv_text ++ contentMatches conv_text) []
    simpa [extract_messages_from_raw, messageCandidates] using h0
  refine ⟨?_, heq⟩
  rw [heq]
  constructor
  · intro hmem
    exact (List.mem_filter.mp hmem).2
  · intro hk
    exact List.mem_filter.mpr ⟨List.mem_map_of_mem _ hm, hk⟩

theorem message_filter_spec_witness :
    cs "A message over twenty chars long for sure" ∈ messageCandidates rawEx ∧
    (unicodeUnescape (cs "A message over twenty chars long for sure") ∈
        extract_messages_from_raw rawEx ↔
      keepMessage (unicodeUnescape (cs "A message over twenty chars long for sure")) = true) :=
  ⟨by decide, (message_filter_spec rawEx _ (by decide)).1⟩

/-- Claim C8.  On the concrete raw-text input `rawEx`, the Extractor yields
exactly one conversation, with title `Test`, create time 1700000000.0, and
exactly one message surviving the length/prefix filter. -/
theorem raw_extractor_concrete :
    (parse_raw_text_export rawEx).map ConvData.title = [cs "Test"] ∧
    (parse_raw_text_export rawEx).map ConvData.create_time = [some (1700000000 : ℚ)] ∧
    (parse_raw_text_export rawEx).map (fun cd => cd.messages) =
      [[cs "A message over twenty chars long for sure"]] := by
  refine ⟨by decide, ?_, by decide⟩
  decide

theorem mkRat_hundredths_eq (s : Int) : (mkRat s 100 : ℚ) = (s : ℚ) / 100 := by
  rw [Rat.mkRat_eq_divInt, Rat.divInt_eq_div]
  norm_num

theorem mkRat_clamp_eq (s : Int) :
    (mkRat (min (max s 10) 100) 100 : ℚ) = min (max ((s : ℚ) / 100) (1 / 10)) 1 := by
  rw [mkRat_hundredths_eq]
  push_cast
  rw [← min_div_div_right (by norm_num : (0:ℚ) ≤ 100),
      ← max_div_div_right (by norm_num : (0:ℚ) ≤ 100)]
  norm_num

theorem ite_add_extract {c : Prop} [Decidable c] (x a : Int) :
    (if c then x + a else x) = x + (if c then a else 0) := by
  split_ifs <;> simp

theorem ite_sub_extract {c : Prop} [Decidable c] (x a : Int) :
    (if c then x - a else x) = x - (if c then a else 0) := by
  split_ifs <;> simp

theorem ite_zero_nonneg {c : Prop} [Decidable c] {n : Int} (h : 0 ≤ n) :
    0 ≤ (if c then n else 0) := by
  split_ifs <;> simp [h]

theorem ite_zero_le_self {c : Prop} [Decidable c] {n : Int} (h : 0 ≤ n) :
    (if c then n else 0) ≤ n := by
  split_ifs <;> simp [h]

/-- The adjustment chain in extracted normal form: each conditional increment
or decrement pulled out as an `if … then n else 0` summand. -/
theorem rawScoreHundredths_eq (categories tags : List (List Char))
    (messages : List (List Char)) :
    rawScoreHundredths categories tags messages =
      50
      + (if categories.any (fun c => containsStr c (cs "Project")) then 20 else 0)
      + (if cs "Framework" ∈ tags ∨ cs "Template" ∈ tags ∨ cs "System" ∈ tags then 15 else 0)
      + (if cs "Email Sequence" ∈ tags ∨ cs "Landing Page" ∈ tags ∨ cs "Sales Page" ∈ tags then 15 else 0)
      + (if 10 < messages.length then 10 else 0)
      + (if cs "Business Strategy" ∈ categories ∨ cs "Analysis" ∈ tags then 10 else 0)
      - (if categories = [cs "General Chat"] then 20 else 0)
      - (if messages.length < 3 then 10 else 0) := rfl

theorem rawScoreHundredths_ge (categories tags : List (List Char))
    (messages : List (List Char)) : 20 ≤ rawScoreHundredths categories tags messages := by
  rw [rawScoreHundredths_eq]
  have h1 := ite_zero_nonneg (c := categories.any (fun c => containsStr c (cs "Project")) = true)
    (n := 20) (by norm_num)
  have h2 := ite_zero_nonneg
    (c := cs "Framework" ∈ tags ∨ cs "Template" ∈ tags ∨ cs "System" ∈ tags)
    (n := 15) (by norm_num)
  have h3 := ite_zero_nonneg
    (c := cs "Email Sequence" ∈ tags ∨ cs "Landing Page" ∈ tags ∨ cs "Sales Page" ∈ tags)
    (n := 15) (by norm_num)
  have h4 := ite_zero_nonneg (c := 10 < messages.length) (n := 10) (by norm_num)
  have h5 := ite_zero_nonneg
    (c := cs "Business Strategy" ∈ categories ∨ cs "Analysis" ∈ tags)
    (n := 10) (by norm_num)
  have h6 := ite_zero_le_self (c := categories = [cs "General Chat"]) (n := 20) (by norm_num)
  have h7 := ite_zero_le_self (c := messages.length < 3) (n := 10) (by norm_num)
  omega

theorem score_bounds (t d : List Char) (cats tags : List (List Char))
    (ms : List (List Char)) :
    1 / 10 ≤ calculate_relevance_score t d cats tags ms ∧
      calculate_relevance_score t d cats tags ms ≤ 1 := by
  unfold calculate_relevance_score
  rw [mkRat_clamp_eq]
  constructor
  · exact le_min (le_max_right _ _) (by norm_num)
  · exact min_le_right _ _

/-- Claim C10.  For every input, `calculate_relevance_score` returns at least
0.2: the maximal total penalty is 0.3 against the 0.5 base, so the lower
clamp bound 0.1 is never attained. -/
theorem relevance_score_at_least_point_two (t d : List Char)
    (cats tags : List (List Char)) (ms : List (List Char)) :
    (0.2 : ℚ) ≤ calculate_relevance_score t d cats tags ms := by
  unfold calculate_relevance_score
  rw [mkRat_clamp_eq]
  have h20 := rawScoreHundredths_ge cats tags ms
  have hq : (20 : ℚ) ≤ ((rawScoreHundredths cats tags ms : ℤ) : ℚ) := by exact_mod_cast h20
  have hdiv : (0.2 : ℚ) ≤ ((rawScoreHundredths cats tags ms : ℤ) : ℚ) / 100 := by
    rw [le_div_iff₀ (by norm_num : (0:ℚ) < 100)]
    norm_num
    linarith
  exact le_min (le_trans hdiv (le_max_left _ _)) (by norm_num)

/-- Claim C2.  `calculate_relevance_score` returns exactly the spec's formula:
0.5, plus the seven additive adjustments, clamped to [0.1, 1.0]. -/
theorem relevance_score_matches_formula (t d : List Char)
    (cats tags : List (List Char)) (ms : List (List Char)) :
    calculate_relevance_score t d cats tags ms = relevanceScoreFormula cats tags ms := by
  unfold calculate_relevance_score relevanceScoreFormula
  rw [mkRat_clamp_eq]
  have hsum : ((rawScoreHundredths cats tags ms : ℤ) : ℚ) / 100 =
      (0.5 : ℚ)
      + (if cats.any (fun c => containsStr c (cs "Project")) then 0.2 else 0)
      + (if cs "Framework" ∈ tags ∨ cs "Template" ∈ tags ∨ cs "System" ∈ tags then 0.15 else 0)
      + (if cs "Email Sequence" ∈ tags ∨ cs "Landing Page" ∈ tags ∨ cs "Sales Page" ∈ tags then 0.15 else 0)
      + (if 10 < ms.length then 0.1 else 0)
      + (if cs "Business Strategy" ∈ cats ∨ cs "Analysis" ∈ tags then 0.1 else 0)
      - (if cats = [cs "General Chat"] then 0.2 else 0)
      - (if ms.length < 3 then 0.1 else 0) := by
    rw [rawScoreHundredths_eq]
    push_cast [apply_ite (fun n : ℤ => (n : ℚ))]
    rw [sub_div, sub_div, add_div, add_div, add_div, add_div, add_div]
    norm_num [apply_ite (fun q : ℚ => q / 100)]
  rw [hsum]
  norm_num

theorem take_three_ne_nil {α : Type} {l : List α} (h : l.isEmpty = false) :
    l.take 3 ≠ [] := by
  cases l with
  | nil => simp at h
  | cons x xs => simp [List.take]

/-- Lemma: `determine_categories` always returns between one and three categories. -/
theorem determine_categories_shape (t d : List Char) (ms : List (List Char)) :
    determine_categories t d ms ≠ [] ∧ (determine_categories t d ms).length ≤ 3 := by
  unfold determine_categories
  set scored := category_patterns.filterMap (fun cp =>
    let score := (cp.2.filter (fun p => containsStr (catContent t d ms) p)).length
    if 0 < score then some (cp.1, score) else none) with hsc
  by_cases h0 : scored.isEmpty
  · simp only [h0, if_true]
    split_ifs <;> simp_all
  · simp only [h0, if_false, Bool.false_eq_true]
    by_cases h1 : (((sortDescByScore scored).map Prod.fst).take 3).isEmpty
    · simp only [h1, if_true]
      split_ifs <;> simp
    · simp only [h1, if_false, Bool.false_eq_true]
      refine ⟨?_, ?_⟩
      · simpa [List.isEmpty_iff] using h1
      · simp [List.length_take]

/-- Lemma: `generate_specific_tags` always returns between one and five tags. -/
theorem generate_specific_tags_shape (t d : List Char) (ms : List (List Char)) :
    generate_specific_tags t d ms ≠ [] ∧ (generate_specific_tags t d ms).length ≤ 5 := by
  unfold generate_specific_tags
  by_cases h0 : (tagSet t d ms).isEmpty
  · simp [h0]
  · simp only [h0, if_false, Bool.false_eq_true]
    refine ⟨?_, by simp [List.length_take]⟩
    cases hl : tagSet t d ms with
    | nil => rw [hl] at h0; simp at h0
    | cons x xs => simp [List.take]

/-- Claim C1.  Every record produced by `extract_conversation_details` has a
relevance score in [0.1, 1.0], a non-empty category list of at most three
entries, and a non-empty tag list of at most five entries. -/
theorem record_invariants (cd : ConvData) (rec : ConversationRecord)
    (h : extract_conversation_details cd = some rec) :
    1 / 10 ≤ rec.relevance_score ∧ rec.relevance_score ≤ 1 ∧
    rec.category ≠ [] ∧ rec.category.length ≤ 3 ∧
    rec.tags ≠ [] ∧ rec.tags.length ≤ 5 := by
  unfold extract_conversation_details at h
  split at h
  · exact absurd h (by simp)
  · rw [Option.some.injEq] at h
    subst h
    simp only []
    refine ⟨(score_bounds _ _ _ _ _).1, (score_bounds _ _ _ _ _).2,
      (determine_categories_shape _ _ _).1, (determine_categories_shape _ _ _).2,
      (generate_specific_tags_shape _ _ _).1, (generate_specific_tags_shape _ _ _).2⟩

theorem record_invariants_witness :
    ∃ r, extract_conversation_details cdEx2 = some r ∧
      1 / 10 ≤ r.relevance_score ∧ r.relevance_score ≤ 1 ∧
      r.category ≠ [] ∧ r.category.length ≤ 3 ∧
      r.tags ≠ [] ∧ r.tags.length ≤ 5 := by
  cases hEq : extract_conversation_details cdEx2 with
  | none => exact absurd hEq (by decide)
  | some r =>
    have h := record_invariants cdEx2 r hEq
    exact ⟨r, rfl, h.1, h.2.1, h.2.2.1, h.2.2.2.1, h.2.2.2.2.1, h.2.2.2.2.2⟩

theorem epochToDateStr_ne_nil (t : ℚ) (s : List Char)
    (h : epochToDateStr t = some s) : s ≠ [] := by
  unfold epochToDateStr at h
  split at h
  split at h
  · rw [Option.some.injEq] at h
    subst h
    simp
  · exact absurd h (by simp)

/-- Claim C4.  For every produced record, `date_source = "exact"` iff the date
is non-empty; and a non-empty date is exactly the `YYYY-MM-DD` rendering of
the conversation's `create_time`. -/
theorem date_source_iff_date (cd : ConvData) (rec : ConversationRecord)
    (h : extract_conversation_details cd = some rec) :
    (rec.date_source = cs "exact" ↔ rec.date ≠ []) ∧
    (rec.date ≠ [] →
      ∃ t, cd.create_time = some t ∧ epochToDateStr t = some rec.date) := by
  unfold extract_conversation_details at h
  split at h
  · exact absurd h (by simp)
  · rw [Option.some.injEq] at h
    subst h
    simp only []
    cases hct : cd.create_time with
    | none =>
      simp only [hct, Option.getD_none, Option.isSome_none, Bool.false_eq_true, if_false]
      exact ⟨iff_of_false (by decide) (by simp), fun hne => absurd rfl hne⟩
    | some t =>
      simp only [hct]
      by_cases ht0 : t = 0
      · simp only [ht0, if_pos rfl, Option.getD_none, Option.isSome_none,
          Bool.false_eq_true, if_false]
        exact ⟨iff_of_false (by decide) (by simp), fun hne => absurd rfl hne⟩
      · simp only [if_neg ht0]
        cases hdt : epochToDateStr t with
        | none =>
          simp only [Option.getD_none, Option.isSome_none, Bool.false_eq_true, if_false]
          exact ⟨iff_of_false (by decide) (by simp), fun hne => absurd rfl hne⟩
        | some s =>
          simp only [Option.getD_some, Option.isSome_some, if_true]
          exact ⟨iff_of_true (by simp) (epochToDateStr_ne_nil t s hdt),
            fun _ => ⟨t, rfl, hdt⟩⟩

theorem date_source_iff_date_witness :
    ∃ r, extract_conversation_details cdEx = some r ∧
      (r.date_source = cs "exact" ↔ r.date ≠ []) := by
  cases hEq : extract_conversation_details cdEx with
  | none => exact absurd hEq (by decide)
  | some r => exact ⟨r, rfl, (date_source_iff_date cdEx r hEq).1⟩

/-- Claim C3, code behaviour at the claim's example.  On records dated
`2024-03-01`, `""`, `2024-01-01`, the Batch Coordinator's sort places the
empty date FIRST, not last: the `'9999-99-99'` sentinel in
`x.get('date', '9999-99-99')` never applies because every record carries a
`date` key (empty string when missing), and `'' < '2024-01-01'` in string
order.  The claimed output order `2024-01-01, 2024-03-01, ""` is refuted. -/
theorem sort_puts_empty_date_first :
    (sortByDate [recWithDate (cs "2024-03-01"), recWithDate [],
        recWithDate (cs "2024-01-01")]).map ConversationRecord.date =
      [[], cs "2024-01-01", cs "2024-03-01"] := by
  decide

theorem dedup_foldl_acc (l : List ConversationRecord) (acc : List ConversationRecord)
    (seen : List (List Char × List Char)) :
    (l.foldl dedupStep (acc, seen)).1 = acc ++ (l.foldl dedupStep ([], seen)).1 := by
  induction l generalizing acc seen with
  | nil => simp
  | cons x xs ih =>
    simp only [List.foldl_cons, dedupStep]
    by_cases h : dedupKey x ∈ seen
    · simp only [if_pos h]
      exact ih acc seen
    · simp only [if_neg h]
      rw [ih (acc ++ [x]) (seen ++ [dedupKey x]), ih ([] ++ [x]) (seen ++ [dedupKey x])]
      simp

theorem dedup_foldl_eq_aux (l : List ConversationRecord)
    (seen : List (List Char × List Char)) :
    (l.foldl dedupStep ([], seen)).1 = dedupAux seen l := by
  induction l generalizing seen with
  | nil => simp [dedupAux]
  | cons x xs ih =>
    simp only [List.foldl_cons, dedupStep, dedupAux]
    by_cases h : dedupKey x ∈ seen
    · simp only [if_pos h]
      exact ih seen
    · simp only [if_neg h]
      rw [dedup_foldl_acc, ih]
      simp

theorem firstOccurrences_nil : firstOccurrences [] = [] := by
  rw [firstOccurrences.eq_def]

theorem firstOccurrences_cons (x : ConversationRecord) (xs : List ConversationRecord) :
    firstOccurrences (x :: xs) =
      x :: firstOccurrences (xs.filter (fun y => decide (dedupKey y ≠ dedupKey x))) := by
  rw [firstOccurrences.eq_def]

theorem dedupAux_eq_firstOccurrences (l : List ConversationRecord)
    (seen : List (List Char × List Char)) :
    dedupAux seen l =
      firstOccurrences (l.filter (fun y => decide (dedupKey y ∉ seen))) := by
  induction l generalizing seen with
  | nil => simp [dedupAux, firstOccurrences_nil]
  | cons x xs ih =>
    simp only [dedupAux, List.filter_cons]
    by_cases h : dedupKey x ∈ seen
    · have hd : decide (dedupKey x ∉ seen) = false := by simp [h]
      simp only [hd, Bool.false_eq_true, if_false, if_pos h]
      exact ih seen
    · have hd : decide (dedupKey x ∉ seen) = true := by simp [h]
      simp only [hd, if_true, if_neg h]
      rw [firstOccurrences_cons, ih (seen ++ [dedupKey x])]
      have hpt : ∀ y : ConversationRecord,
          (decide (dedupKey y ≠ dedupKey x) && decide (dedupKey y ∉ seen)) =
            decide (dedupKey y ∉ seen ++ [dedupKey x]) := by
        intro y
        by_cases h1 : dedupKey y ∈ seen <;> by_cases h2 : dedupKey y = dedupKey x <;>
          simp [h1, h2, List.mem_append]
      rw [List.filter_filter]
      simp only [hpt]

/-- Claim C7.  The Batch Coordinator's dedup keeps, for each `(name, date)`
key, exactly the first record encountered, unchanged and in the original
relative order: the fold with a `seen` set equals first-occurrence
deduplication. -/
theorem dedup_first_occurrence_wins (l : List ConversationRecord) :
    removeDuplicates l = firstOccurrences l := by
  unfold removeDuplicates
  rw [dedup_foldl_eq_aux, dedupAux_eq_firstOccurrences]
  congr 1
  simp

theorem take_300_le (l : List Char) : (l.take 300).length ≤ 300 := by
  simp [List.length_take]

/-- Claim C9, amended.  When the combined description is under 50 characters,
the message list is non-empty, and some message exceeds 100 characters, the
description becomes the first such message truncated to 200 characters WITH
a three-dot ellipsis appended; and every returned description has length at
most 300. -/
theorem description_fallback_appends_ellipsis (t : List Char) (ms : List (List Char))
    (m : List Char)
    (hshort : (combinedDescription t ms).length < 50)
    (hfind : ms.find? (fun m => decide (100 < m.length)) = some m) :
    create_intelligent_description t ms = m.take 200 ++ cs "..." ∧
    ∀ t2 ms2, (create_intelligent_description t2 ms2).length ≤ 300 := by
  constructor
  · have hne : ms.isEmpty = false := by
      cases ms with
      | nil => simp at hfind
      | cons a l => simp
    have hcond : ((combinedDescription t ms).length < 50 && !ms.isEmpty) = true := by
      simp [hshort, hne]
    unfold create_intelligent_description
    simp only [hcond, if_true, hfind]
    rw [List.take_of_length_le]
    simp only [List.length_append, List.length_take]
    have : (cs "...").length = 3 := by decide
    omega
  · intro t2 ms2
    exact take_300_le _

set_option maxRecDepth 20000 in
/-- Claim C9, counterexample.  On title `""` and the single 150-character
message `zMsg`, the fallback's conditions hold, yet the returned description
is NOT the message truncated to 200 characters (the code appends `"..."`). -/
theorem description_fallback_not_truncation :
    (combinedDescription [] [zMsg]).length < 50 ∧
    [zMsg].find? (fun m => decide (100 < m.length)) = some zMsg ∧
    create_intelligent_description [] [zMsg] ≠ zMsg.take 200 := by
  refine ⟨by decide, by decide, by decide⟩

set_option maxRecDepth 20000 in
theorem description_fallback_appends_ellipsis_witness :
    create_intelligent_description [] [zMsg] = zMsg.take 200 ++ cs "..." ∧
    (create_intelligent_description [] [zMsg]).length ≤ 300 := by
  have h := description_fallback_appends_ellipsis [] [zMsg] zMsg (by decide) (by decide)
  exact ⟨h.1, h.2 [] [zMsg]⟩
